import Mathlib

/-!
# Relay pagination and global-identifier core: a shallow embedding

This file embeds `src/strawberry/relay/types.py` (the Relay cursor-connection
pagination algorithm, the `GlobalID` opaque-identifier wrapper, and node
resolution) in Lean and proves the spec's testable properties about it.

Modelling conventions:

* Python strings are modelled as their encoded byte sequences, `List Nat`
  with every byte `< 256` (`StrB`).  Python guarantees `< 256` after
  encoding, so theorems about arbitrary strings carry that bound as a
  hypothesis.
* Python exceptions are modelled with `Except`.  Error messages are elided:
  the spec's claims only distinguish error classes (`ValueError`-like
  validation errors vs `assert` failures vs `TypeError`), so errors are
  plain constructors.
* The base64 helpers `to_base64` / `from_base64` live in
  `strawberry/relay/utils.py`, which is not part of the sources provided;
  they are modelled from the spec (see their doc comments).
-/

namespace Strawberry

/-- A Python string, as its encoded byte sequence. -/
abbrev StrB := List Nat

/-- Well-formed byte string: every byte fits in one octet. -/
abbrev ByteStr (s : StrB) : Prop := ∀ b ∈ s, b < 256

instance {ε α : Type} [DecidableEq ε] [DecidableEq α] : DecidableEq (Except ε α) := fun x y =>
  match x, y with
  | .error a, .error b =>
      if h : a = b then .isTrue (by rw [h]) else .isFalse (by intro hc; cases hc; exact h rfl)
  | .ok a, .ok b =>
      if h : a = b then .isTrue (by rw [h]) else .isFalse (by intro hc; cases hc; exact h rfl)
  | .error _, .ok _ => .isFalse (by intro hc; cases hc)
  | .ok _, .error _ => .isFalse (by intro hc; cases hc)

/-- The fixed cursor namespace `connection_typename = "arrayconnection"`
(`types.py` line 40), as bytes. -/
def connection_typename : StrB :=
  [97, 114, 114, 97, 121, 99, 111, 110, 110, 101, 99, 116, 105, 111, 110]

/-! ## Base64 (the "standard binary-to-text transform" of the codec)

Modelled from the spec: the codec applies "a standard binary-to-text
transform (e.g., base64-style)" (spec §4.1); the source imports
`to_base64` / `from_base64` from `strawberry/relay/utils.py`, which is not
among the provided sources.  This is standard RFC 4648 base64 over bytes,
with strict decoding (groups of four alphabet characters, `=` padding only
at the end). -/

/-- The base64 alphabet: sextet value to ASCII byte. -/
def b64chr (n : Nat) : Nat :=
  if n < 26 then 65 + n                 -- A-Z
  else if n < 52 then 97 + (n - 26)     -- a-z
  else if n < 62 then 48 + (n - 52)     -- 0-9
  else if n = 62 then 43                -- +
  else 47                               -- /

/-- Inverse of the alphabet: ASCII byte to sextet value, `none` off-alphabet. -/
def b64dec (c : Nat) : Option Nat :=
  if 65 ≤ c ∧ c ≤ 90 then some (c - 65)
  else if 97 ≤ c ∧ c ≤ 122 then some (c - 97 + 26)
  else if 48 ≤ c ∧ c ≤ 57 then some (c - 48 + 52)
  else if c = 43 then some 62
  else if c = 47 then some 63
  else none

/-- Base64-encode a byte sequence (`61` is ASCII `=`, the padding byte). -/
def b64encode : List Nat → List Nat
  | [] => []
  | [a] => [b64chr (a / 4), b64chr (a % 4 * 16), 61, 61]
  | [a, b] => [b64chr (a / 4), b64chr (a % 4 * 16 + b / 16), b64chr (b % 16 * 4), 61]
  | a :: b :: c :: rest =>
      b64chr (a / 4) :: b64chr (a % 4 * 16 + b / 16) ::
        b64chr (b % 16 * 4 + c / 64) :: b64chr (c % 64) :: b64encode rest

/-- Strict base64 decode: `none` on any malformed input (length not a
multiple of four, off-alphabet byte, padding anywhere but the final group). -/
def b64decode : List Nat → Option (List Nat)
  | [] => some []
  | c1 :: c2 :: c3 :: c4 :: rest =>
      if rest = [] ∧ c3 = 61 ∧ c4 = 61 then do
        let s1 ← b64dec c1
        let s2 ← b64dec c2
        pure [s1 * 4 + s2 / 16]
      else if rest = [] ∧ c4 = 61 then do
        let s1 ← b64dec c1
        let s2 ← b64dec c2
        let s3 ← b64dec c3
        pure [s1 * 4 + s2 / 16, s2 % 16 * 16 + s3 / 4]
      else do
        let s1 ← b64dec c1
        let s2 ← b64dec c2
        let s3 ← b64dec c3
        let s4 ← b64dec c4
        let tail ← b64decode rest
        pure ((s1 * 4 + s2 / 16) :: (s2 % 16 * 16 + s3 / 4) :: (s3 % 4 * 64 + s4) :: tail)
  | _ => none

theorem b64dec_b64chr_fin :
    ∀ s : Fin 64, b64dec (b64chr s.val) = some s.val ∧ b64chr s.val ≠ 61 := by decide

theorem b64dec_b64chr {s : Nat} (h : s < 64) : b64dec (b64chr s) = some s :=
  (b64dec_b64chr_fin ⟨s, h⟩).1

theorem b64chr_ne_61 {s : Nat} (h : s < 64) : b64chr s ≠ 61 :=
  (b64dec_b64chr_fin ⟨s, h⟩).2

/-- Base64 round-trip: strict decode inverts encode on genuine bytes. -/
theorem b64decode_b64encode (bs : List Nat) (h : ByteStr bs) :
    b64decode (b64encode bs) = some bs := by
  induction bs using b64encode.induct with
  | case1 => rfl
  | case2 a =>
      have ha : a < 256 := h a (by simp)
      simp only [b64encode, b64decode]
      rw [if_pos (by simp)]
      rw [b64dec_b64chr (by omega), b64dec_b64chr (by omega)]
      simp
      omega
  | case3 a b =>
      have ha : a < 256 := h a (by simp)
      have hb : b < 256 := h b (by simp)
      simp only [b64encode, b64decode]
      rw [if_neg (by rintro ⟨-, h61, -⟩; exact b64chr_ne_61 (by omega) h61)]
      rw [if_pos (by simp)]
      rw [b64dec_b64chr (by omega), b64dec_b64chr (by omega), b64dec_b64chr (by omega)]
      simp
      constructor
      · omega
      · omega
  | case4 a b c rest ih =>
      have ha : a < 256 := h a (by simp)
      have hb : b < 256 := h b (by simp)
      have hc : c < 256 := h c (by simp)
      have hrest : ByteStr rest := fun x hx => h x (by simp [hx])
      simp only [b64encode, b64decode]
      rw [if_neg (by rintro ⟨-, -, h61⟩; exact b64chr_ne_61 (by omega) h61)]
      rw [if_neg (by rintro ⟨-, h61⟩; exact b64chr_ne_61 (by omega) h61)]
      rw [b64dec_b64chr (by omega), b64dec_b64chr (by omega), b64dec_b64chr (by omega),
        b64dec_b64chr (by omega), ih hrest]
      simp
      refine ⟨by omega, by omega, by omega⟩

/-! ## Opaque identifier codec (`to_base64` / `from_base64`)

Modelled from the spec (§4.1): `encode` joins the two fields with the fixed
separator `:` (byte 58) and base64s the result; `decode` reverses the
transform, splits on the separator, and fails with a `ValueError`-class
error if the token is not validly encoded, is not splittable into exactly
two parts, or either part is empty.  The concrete functions live in
`strawberry/relay/utils.py`, which is not among the provided sources. -/

/-- Split a byte string on every occurrence of `sep` (Python `str.split`). -/
def splitOnByte (sep : Nat) : List Nat → List (List Nat)
  | [] => [[]]
  | b :: rest =>
      if b = sep then [] :: splitOnByte sep rest
      else
        match splitOnByte sep rest with
        | [] => [[b]]
        | p :: ps => (b :: p) :: ps

/-- Modelled from the spec: `encode(type_name, entity_id)` joins the fields
with the separator and applies the binary-to-text transform. -/
def to_base64 (type_ node_id : StrB) : StrB :=
  b64encode (type_ ++ 58 :: node_id)

/-- The codec's `ValueError`-class decode failure (message elided). -/
inductive CodecError
  | valueError
  deriving DecidableEq

/-- Modelled from the spec: `decode(token)` reverses the transform, splits on
the separator, and fails if the token is not validly encoded, does not split
into exactly two parts, or either part is empty. -/
def from_base64 (s : StrB) : Except CodecError (StrB × StrB) :=
  match b64decode s with
  | none => .error .valueError
  | some bs =>
      match splitOnByte 58 bs with
      | [t, v] => if t = [] ∨ v = [] then .error .valueError else .ok (t, v)
      | _ => .error .valueError

theorem splitOnByte_not_mem {sep : Nat} {v : List Nat} (h : sep ∉ v) :
    splitOnByte sep v = [v] := by
  induction v with
  | nil => rfl
  | cons b rest ih =>
      have hb : b ≠ sep := fun hbs => h (by simp [hbs])
      have hrest : sep ∉ rest := fun hs => h (by simp [hs])
      simp only [splitOnByte, if_neg hb, ih hrest]

theorem splitOnByte_append {sep : Nat} {t v : List Nat} (ht : sep ∉ t) :
    splitOnByte sep (t ++ sep :: v) = t :: splitOnByte sep v := by
  induction t with
  | nil => simp [splitOnByte]
  | cons b rest ih =>
      have hb : b ≠ sep := fun hbs => ht (by simp [hbs])
      have hrest : sep ∉ rest := fun hs => ht (by simp [hs])
      simp only [List.cons_append, splitOnByte, if_neg hb, List.append_eq, ih hrest]

/-- Decoding a well-formed encoded token recovers both parts, provided
neither part contains the separator byte. -/
theorem from_base64_to_base64 (t v : StrB) (hbt : ByteStr t) (hbv : ByteStr v)
    (hst : 58 ∉ t) (hsv : 58 ∉ v) (ht : t ≠ []) (hv : v ≠ []) :
    from_base64 (to_base64 t v) = .ok (t, v) := by
  have hbytes : ByteStr (t ++ 58 :: v) := by
    intro b hb
    rcases List.mem_append.1 hb with h1 | h1
    · exact hbt b h1
    · rcases List.mem_cons.1 h1 with h2 | h2
      · omega
      · exact hbv b h2
  have h1 : b64decode (b64encode (t ++ 58 :: v)) = some (t ++ 58 :: v) :=
    b64decode_b64encode _ hbytes
  have h2 : splitOnByte 58 (t ++ 58 :: v) = [t, v] := by
    rw [splitOnByte_append hst, splitOnByte_not_mem hsv]
  simp only [from_base64, to_base64, h1, h2]
  simp [ht, hv]

/-! ## `GlobalID` (`types.py` lines 49-111) -/

/-- `GlobalIDValueError` (`types.py` line 45); messages elided. -/
inductive GlobalIDValueError
  | mk
  deriving DecidableEq

/-- `GlobalID` (`types.py` lines 49-74).  The `__post_init__` `isinstance`
string checks (lines 76-84) always pass here because the fields are typed as
byte strings, matching calls that construct it from decoded string parts. -/
structure GlobalID where
  type_name : StrB
  node_id : StrB
  deriving DecidableEq

/-- `GlobalID.__str__` (`types.py` lines 86-87). -/
def GlobalID.str (g : GlobalID) : StrB :=
  to_base64 g.type_name g.node_id

/-- `GlobalID.from_id` (`types.py` lines 89-111): decode, wrapping any
`ValueError` from the codec into `GlobalIDValueError`. -/
def GlobalID.from_id (value : StrB) : Except GlobalIDValueError GlobalID :=
  match from_base64 value with
  | .error _ => .error .mk
  | .ok (t, v) => .ok ⟨t, v⟩

/-- A token the codec must reject: not validly base64-encoded, or not
splittable into exactly two parts on the separator, or with an empty part
(spec §4.1). -/
def malformedToken (s : StrB) : Bool :=
  match b64decode s with
  | none => true
  | some bs =>
      match splitOnByte 58 bs with
      | [t, v] => t.isEmpty || v.isEmpty
      | _ => true

/-- C2 (amended): round-trip holds for non-empty strings that do not contain
the separator byte `:`; `decode(encode(t, v)) = (t, v)` via `GlobalID`. -/
theorem globalID_roundtrip (t v : StrB) (hbt : ByteStr t) (hbv : ByteStr v)
    (hst : 58 ∉ t) (hsv : 58 ∉ v) (ht : t ≠ []) (hv : v ≠ []) :
    GlobalID.from_id (GlobalID.str ⟨t, v⟩) = .ok ⟨t, v⟩ := by
  unfold GlobalID.from_id GlobalID.str
  rw [from_base64_to_base64 t v hbt hbv hst hsv ht hv]

/-- C2 witness: the round-trip at `t = "a"`, `v = "b"`. -/
theorem globalID_roundtrip_witness :
    GlobalID.from_id (GlobalID.str ⟨[97], [98]⟩) = .ok ⟨[97], [98]⟩ :=
  globalID_roundtrip [97] [98] (by decide) (by decide) (by decide) (by decide)
    (by decide) (by decide)

/-- The codec rejects malformed tokens with its `ValueError`-class failure. -/
theorem from_base64_malformed (s : StrB) (h : malformedToken s = true) :
    from_base64 s = .error .valueError := by
  unfold from_base64 malformedToken at *
  cases hdec : b64decode s with
  | none => simp only [hdec]
  | some bs =>
      simp only [hdec] at h ⊢
      cases hsp : splitOnByte 58 bs with
      | nil => simp only [hsp]
      | cons p ps =>
          cases ps with
          | nil => simp only [hsp]
          | cons q qs =>
              cases qs with
              | nil =>
                  simp only [hsp, Bool.or_eq_true, List.isEmpty_iff] at h
                  simp only [hsp, if_pos h]
              | cons r rs => simp only [hsp]

/-- C2 counterexample: with `t = "a:b"`, `v = "c"` (both non-empty), decoding
the encoded token does not yield `(t, v)`: the separator occurring inside a
field breaks the round-trip, so the claim is false for arbitrary non-empty
strings. -/
theorem globalID_roundtrip_counterexample :
    GlobalID.from_id (GlobalID.str ⟨[97, 58, 98], [99]⟩) ≠
      .ok ⟨[97, 58, 98], [99]⟩ := by decide

/-- C7: on every malformed token (not valid base64, not exactly two parts,
or an empty part) `GlobalID.from_id` fails with the `GlobalIDValueError`
value error; the `Except` result type records that the decoding step can
surface no other exception shape. -/
theorem from_id_malformed (s : StrB) (h : malformedToken s = true) :
    GlobalID.from_id s = .error .mk := by
  unfold GlobalID.from_id
  simp only [from_base64_malformed s h]

/-- C7 witness: `"!"` is not valid base64, so `from_id` rejects it. -/
theorem from_id_malformed_witness : GlobalID.from_id [33] = .error .mk :=
  from_id_malformed [33] (by decide)

/-! ## Decimal integers

Cursor payloads are built with Python string interpolation of an `int`
(`Edge.from_node`, line 470) and read back with `int(...)`
(`from_nodes`, lines 559/563). -/

/-- Decimal digits of `n`, most significant first, as ASCII bytes; the fuel
argument makes the recursion structural so tokens evaluate in the kernel. -/
def natToDecAux : Nat → Nat → List Nat
  | 0, _ => []
  | fuel + 1, n =>
      if n < 10 then [48 + n] else natToDecAux fuel (n / 10) ++ [48 + n % 10]

/-- Python `str` of a non-negative int. -/
def natToDec (n : Nat) : StrB := natToDecAux (n + 1) n

/-- Python `str` of an int (`-` sign byte 45 for negatives). -/
def intToDec (i : Int) : StrB :=
  if i < 0 then 45 :: natToDec i.natAbs else natToDec i.toNat

/-- Value of a non-empty all-digit byte string, `none` otherwise. -/
def decVal? (s : List Nat) : Option Nat :=
  if s = [] then none
  else
    s.foldl
      (fun acc b =>
        acc.bind fun a => if 48 ≤ b ∧ b ≤ 57 then some (a * 10 + (b - 48)) else none)
      (some 0)

/-- Python `int(...)` on a cursor payload: an optional sign followed by
decimal digits.  (Whitespace/underscore forms never occur in engine-produced
cursors and are not modelled.) -/
def pyInt (s : StrB) : Option Int :=
  match s with
  | [] => none
  | b :: rest =>
      if b = 45 then (decVal? rest).map (fun m => -(m : Int))
      else if b = 43 then (decVal? rest).map (fun m => (m : Int))
      else (decVal? (b :: rest)).map (fun m => (m : Int))

theorem natToDecAux_ne_nil {fuel n : Nat} (h : n < fuel) : natToDecAux fuel n ≠ [] := by
  cases fuel with
  | zero => omega
  | succ fuel =>
      unfold natToDecAux
      split
      · simp
      · simp

theorem natToDecAux_digits {fuel n : Nat} (h : n < fuel) :
    ∀ b ∈ natToDecAux fuel n, 48 ≤ b ∧ b ≤ 57 := by
  induction fuel generalizing n with
  | zero => omega
  | succ fuel ih =>
      intro b hb
      unfold natToDecAux at hb
      by_cases h10 : n < 10
      · rw [if_pos h10] at hb
        simp only [List.mem_singleton] at hb
        omega
      · rw [if_neg h10] at hb
        rcases List.mem_append.1 hb with h1 | h1
        · exact ih (by omega) b h1
        · simp only [List.mem_singleton] at h1
          omega

theorem foldl_natToDecAux {fuel n : Nat} (h : n < fuel) (a : Nat) :
    List.foldl
      (fun acc b =>
        acc.bind fun x => if 48 ≤ b ∧ b ≤ 57 then some (x * 10 + (b - 48)) else none)
      (some a) (natToDecAux fuel n) =
      some (a * 10 ^ (natToDecAux fuel n).length + n) := by
  induction fuel generalizing n a with
  | zero => omega
  | succ fuel ih =>
      by_cases h10 : n < 10
      · unfold natToDecAux
        rw [if_pos h10]
        simp only [List.foldl_cons, List.foldl_nil, Option.some_bind, List.length_singleton]
        rw [if_pos (by omega)]
        simp only [Option.some.injEq]
        omega
      · unfold natToDecAux
        rw [if_neg h10]
        rw [List.foldl_append, ih (by omega) a]
        simp only [List.foldl_cons, List.foldl_nil, Option.some_bind, List.length_append,
          List.length_singleton]
        rw [if_pos (by omega)]
        simp only [Option.some.injEq]
        rw [pow_succ, ← mul_assoc]
        generalize a * 10 ^ (natToDecAux fuel (n / 10)).length = b
        omega

theorem decVal?_natToDec (n : Nat) : decVal? (natToDec n) = some n := by
  unfold decVal? natToDec
  rw [if_neg (natToDecAux_ne_nil (by omega)), foldl_natToDecAux (by omega)]
  simp

theorem natToDec_digits (n : Nat) : ∀ b ∈ natToDec n, 48 ≤ b ∧ b ≤ 57 :=
  natToDecAux_digits (by omega)

theorem pyInt_natToDec (n : Nat) : pyInt (natToDec n) = some (n : Int) := by
  cases hn : natToDec n with
  | nil => exact absurd hn (natToDecAux_ne_nil (by omega))
  | cons d rest =>
      have hd : 48 ≤ d ∧ d ≤ 57 := natToDec_digits n d (by rw [hn]; simp)
      simp only [pyInt]
      rw [if_neg (by omega), if_neg (by omega), ← hn, decVal?_natToDec]
      simp

theorem pyInt_intToDec (k : Int) : pyInt (intToDec k) = some k := by
  unfold intToDec
  by_cases hk : k < 0
  · rw [if_pos hk]
    simp [pyInt, decVal?_natToDec]
    rw [abs_of_neg hk, neg_neg]
  · rw [if_neg hk, pyInt_natToDec]
    simp only [Option.some.injEq]
    omega

theorem intToDec_ne_nil (k : Int) : intToDec k ≠ [] := by
  unfold intToDec
  split
  · simp
  · exact natToDecAux_ne_nil (by omega)

theorem intToDec_bytes (k : Int) : ∀ b ∈ intToDec k, b < 256 ∧ b ≠ 58 := by
  intro b hb
  unfold intToDec at hb
  by_cases hk : k < 0
  · rw [if_pos hk] at hb
    rcases List.mem_cons.1 hb with h1 | h1
    · omega
    · have := natToDec_digits k.natAbs b h1
      omega
  · rw [if_neg hk] at hb
    have := natToDec_digits k.toNat b hb
    omega

/-! ## Pagination engine (`types.py` lines 419-649)

The collection is modelled as a Lean list together with a `sized` flag:
`sized = true` models a sequence (Python `Sized` with `__getitem__`, also
covering ORM objects with a `count()`), `sized = false` models a plain
iterable/generator (no length known up front, sliced with
`itertools.islice`).  `list(nodes)` materialization in the `last` branch
turns the collection into a sequence, which the model tracks by switching
the flag to `true`. -/

/-- `sys.maxsize` on a 64-bit CPython. -/
def maxsize : Int := 2 ^ 63 - 1

/-- The `Edge` GraphQL type (`types.py` lines 449-470). -/
structure EdgeB (α : Type) where
  cursor : StrB
  node : α
  deriving DecidableEq

/-- The `PageInfo` GraphQL type (`types.py` lines 419-446). -/
structure PageInfoB where
  has_next_page : Bool
  has_previous_page : Bool
  start_cursor : Option StrB
  end_cursor : Option StrB
  deriving DecidableEq

/-- The `Connection` GraphQL type (`types.py` lines 473-496). -/
structure ConnectionB (α : Type) where
  page_info : PageInfoB
  edges : List (EdgeB α)
  total_count : Option Int
  deriving DecidableEq

/-- How `from_nodes` can fail: Python `ValueError` (from the cursor decode,
`int(...)`, the `first`/`last` validations, or a negative `islice` bound)
versus `AssertionError` (the cursor-namespace and `end is not None`
assertions).  Messages elided. -/
inductive PagError
  | valueError
  | assertionError
  deriving DecidableEq

/-- `Edge.from_node` (`types.py` lines 468-470): the cursor is
`to_base64(connection_typename, cursor)` with the offset interpolated into
the string. -/
def Edge.from_node {α : Type} (node : α) (cursor : Int) : EdgeB α :=
  ⟨to_base64 connection_typename (intToDec cursor), node⟩

/-- An `"arrayconnection:<k>"` cursor token, as produced by the engine. -/
def mkCursor (k : Int) : StrB :=
  to_base64 connection_typename (intToDec k)

/-- Python list slicing `xs[a:b]` (negative indices count from the end). -/
def pySlice {α : Type} (xs : List α) (a : Int) (b : Option Int) : List α :=
  let n : Int := xs.length
  let a2 : Int := if a < 0 then max 0 (n + a) else a
  let b2 : Int :=
    match b with
    | none => n
    | some b => if b < 0 then max 0 (n + b) else b
  (xs.take b2.toNat).drop a2.toNat

/-- `itertools.islice(xs, a, b)`: like a slice but raises `ValueError` on
negative bounds and cannot count from the end. -/
def isliceM {α : Type} (xs : List α) (a : Int) (b : Option Int) :
    Except PagError (List α) :=
  if a < 0 then .error .valueError
  else
    match b with
    | none => .ok (xs.drop a.toNat)
    | some b =>
        if b < 0 then .error .valueError
        else .ok ((xs.take b.toNat).drop a.toNat)

/-- Decode one `before`/`after` argument (`types.py` lines 556-563): skipped
when absent or empty (Python truthiness), `ValueError` from `from_base64` or
`int(...)` propagates, and a namespace other than `connection_typename`
trips the `assert`. -/
def decodeCursorArg (c : Option StrB) : Except PagError (Option Int) :=
  match c with
  | none => .ok none
  | some s =>
      if s = [] then .ok none
      else
        match from_base64 s with
        | .error _ => .error .valueError
        | .ok (ty, parsed) =>
            if ty = connection_typename then
              match pyInt parsed with
              | some k => .ok (some k)
              | none => .error .valueError
            else .error .assertionError

/-- The `first` branch (`types.py` lines 565-575): validate the bounds, then
`end = min(end, start + first)` guarded by `assert end is not None`. -/
def applyFirst (first : Option Int) (max_results start : Int) (end_ : Option Int) :
    Except PagError (Option Int) :=
  match first with
  | none => .ok end_
  | some f =>
      if f < 0 then .error .valueError
      else if f > max_results then .error .valueError
      else
        match end_ with
        | none => .error .assertionError
        | some e => .ok (some (min e (start + f)))

/-- The `last` branch (`types.py` lines 576-600): validate the bounds; when
`end` is still the `sys.maxsize` sentinel, materialize the collection if the
total count is unknown (`n` is its length), set
`start = max(start, total_count - last)` and `end = None`; otherwise
`start = max(start, end - last)`.  Returns the updated
`(start, end, total_count, sized)`. -/
def applyLast (last : Option Int) (max_results : Int) (n : Nat) (start : Int)
    (end_ : Option Int) (total_count : Option Int) (sized : Bool) :
    Except PagError (Int × Option Int × Option Int × Bool) :=
  match last with
  | none => .ok (start, end_, total_count, sized)
  | some l =>
      if l < 0 then .error .valueError
      else if l > max_results then .error .valueError
      else if end_ = some maxsize then
        match total_count with
        | none => .ok (max start ((n : Int) - l), none, some (n : Int), true)
        | some tc => .ok (max start (tc - l), none, some tc, sized)
      else
        match end_ with
        | none => .error .assertionError
        | some e => .ok (max start (e - l), some e, total_count, sized)

/-- Lines 602-649: default a still-infinite `end`, compute and clamp
`expected`, slice with one-item overfetch, build the edges with absolute
offsets, drop the overfetched edge, and assemble `PageInfo`/`Connection`. -/
def buildPage {α : Type} (nodes : List α) (sized : Bool) (total_count : Option Int)
    (start : Int) (end0 : Option Int) : Except PagError (ConnectionB α) :=
  let max_results : Int := 100
  let end1 : Option Int := if end0 = some maxsize then some (start + max_results) else end0
  let expected1 : Int := match end1 with | some e => e - start | none => |start|
  let pair : Option Int × Int :=
    if expected1 > max_results then (some (start + max_results), max_results)
    else (end1, expected1)
  let end2 := pair.1
  let expected := pair.2
  let stop : Option Int := end2.map (· + 1)
  match (if sized then Except.ok (pySlice nodes start stop) else isliceM nodes start stop :
      Except PagError (List α)) with
  | .error e => .error e
  | .ok sliced =>
      let edges0 := sliced.enum.map fun p => Edge.from_node p.2 (start + (p.1 : Int))
      let pair2 : List (EdgeB α) × Bool :=
        if (edges0.length : Int) = expected + 1 then (edges0.dropLast, true)
        else (edges0, false)
      let edges := pair2.1
      let has_next_page := pair2.2
      .ok
        { page_info :=
            { has_next_page := has_next_page
              has_previous_page := decide (start > 0)
              start_cursor := edges.head?.map EdgeB.cursor
              end_cursor := edges.getLast?.map EdgeB.cursor }
          edges := edges
          total_count := total_count }

/-- `Connection.from_nodes` (`types.py` lines 498-649).  `info` and the
edge-class introspection (lines 613-622) are dropped: the former is unused
by the algorithm and the latter always yields the `Edge` class here. -/
def from_nodes {α : Type} (nodes : List α) (sized : Bool) (total_count : Option Int)
    (before after : Option StrB) (first last : Option Int) :
    Except PagError (ConnectionB α) :=
  -- lines 540-546: derive total_count from .count()/len() when available
  let total_count : Option Int :=
    if total_count = none ∧ sized then some (nodes.length : Int) else total_count
  let max_results : Int := 100
  match decodeCursorArg after with
  | .error e => .error e
  | .ok afterK =>
      match decodeCursorArg before with
      | .error e => .error e
      | .ok beforeK =>
          let start : Int := match afterK with | some k => k + 1 | none => 0
          let end_ : Option Int :=
            match beforeK with
            | some k => some k
            | none => some (match total_count with | some t => t | none => maxsize)
          match applyFirst first max_results start end_ with
          | .error e => .error e
          | .ok end2 =>
              match applyLast last max_results nodes.length start end2 total_count sized with
              | .error e => .error e
              | .ok (start2, end3, tc2, sized2) => buildPage nodes sized2 tc2 start2 end3

/-! ## Node resolution (`GlobalID.resolve_type` / `resolve_node`, lines 113-235) -/

/-- A value produced synchronously (`value`) or as an awaitable (`deferred`
holds what the await will eventually produce). -/
inductive AwaitableOrValue (α : Type)
  | value (a : α)
  | deferred (a : α)
  deriving DecidableEq

/-- An entity, reduced to its runtime class tag (`isinstance` dispatches on
nothing else here). -/
structure Entity where
  tag : Nat
  deriving DecidableEq

/-- `isinstance(e, ensure_type)`, with `ensure_type` the acceptable class or
the tuple of a `Union`'s variants: membership of the runtime tag. -/
def isinst (e : Entity) (tags : List Nat) : Bool := tags.contains e.tag

/-- A per-type `resolve_node` classmethod: takes the node id and the
`required` flag, returns an entity or `None`, possibly as an awaitable. -/
abbrev ResolverCb := StrB → Bool → AwaitableOrValue (Option Entity)

/-- The observable outcome of `GlobalID.resolve_node`: an immediate
`TypeError`, an immediate value, or an awaitable that on await yields the
value or raises the deferred `TypeError` (`Except.error`). -/
inductive ResolveOutcome
  | typeError
  | value (e : Option Entity)
  | deferredValue (r : Except Unit (Option Entity))
  deriving DecidableEq

/-- Lines 206-235 of `GlobalID.resolve_node`, with the resolved type's
callback abstracted: invoke it with `required=(required or ensure_type is
not None)`, then enforce `ensure_type` — immediately when the callback
returned a plain value, or inside the wrapping coroutine when it returned
an awaitable.  `ensure_type` is `none` or the list of acceptable class tags
(a singleton for a plain class; several after the source unpacks a `Union`
into its tuple of variants). -/
def resolveNodeWith (cb : ResolverCb) (node_id : StrB) (required : Bool)
    (ensure_type : Option (List Nat)) : ResolveOutcome :=
  match cb node_id (required || ensure_type.isSome), ensure_type with
  | .value none, _ => .value none
  | .value (some e), none => .value (some e)
  | .value (some e), some tags =>
      if isinst e tags then .value (some e) else .typeError
  | .deferred r, none => .deferredValue (.ok r)
  | .deferred r, some tags =>
      .deferredValue
        (match r with
         | some e => if isinst e tags then .ok (some e) else .error ()
         | none => .error ())

/-- `GlobalID.resolve_node` (lines 180-235): `resolve_type` looks the type
name up in the schema registry (lines 113-138; its `assert`s fail on an
unknown name, and the `_nodes_cache` is a behaviorally transparent cache not
modelled), then delegates to that type's callback. -/
def GlobalID.resolve_node (registry : StrB → Option ResolverCb) (g : GlobalID)
    (required : Bool) (ensure_type : Option (List Nat)) :
    Except Unit ResolveOutcome :=
  match registry g.type_name with
  | none => .error ()
  | some cb => .ok (resolveNodeWith cb g.node_id required ensure_type)

/-! ## Slicing characterizations -/

theorem pySlice_nonneg {α : Type} (xs : List α) {a b : Int} (ha : 0 ≤ a) (hb : 0 ≤ b) :
    pySlice xs a (some b) = (xs.take b.toNat).drop a.toNat := by
  simp only [pySlice]
  rw [if_neg (by omega : ¬ a < 0), if_neg (by omega : ¬ b < 0)]

theorem pySlice_none_nonneg {α : Type} (xs : List α) {a : Int} (ha : 0 ≤ a) :
    pySlice xs a none = xs.drop a.toNat := by
  simp only [pySlice]
  rw [if_neg (by omega : ¬ a < 0)]
  rw [Int.toNat_ofNat, List.take_length]

theorem isliceM_nonneg {α : Type} (xs : List α) {a b : Int} (ha : 0 ≤ a) (hb : 0 ≤ b) :
    isliceM xs a (some b) = .ok ((xs.take b.toNat).drop a.toNat) := by
  unfold isliceM
  rw [if_neg (by omega)]
  simp only
  rw [if_neg (by omega)]

theorem isliceM_none_nonneg {α : Type} (xs : List α) {a : Int} (ha : 0 ≤ a) :
    isliceM xs a none = .ok (xs.drop a.toNat) := by
  unfold isliceM
  rw [if_neg (by omega)]

/-! ## Claim C5: `first`/`last` bound validation -/

theorem applyFirst_bad {f : Int} (hf : f > 100 ∨ f < 0) (s : Int) (e : Option Int) :
    applyFirst (some f) 100 s e = .error .valueError := by
  simp only [applyFirst]
  rcases hf with hf | hf
  · rw [if_neg (by omega), if_pos (by omega)]
  · rw [if_pos (by omega)]

theorem applyLast_bad {l : Int} (hl : l > 100 ∨ l < 0) (n : Nat) (s : Int)
    (e : Option Int) (tc : Option Int) (sz : Bool) :
    applyLast (some l) 100 n s e tc sz = .error .valueError := by
  simp only [applyLast]
  rcases hl with hl | hl
  · rw [if_neg (by omega), if_pos (by omega)]
  · rw [if_pos (by omega)]

theorem applyFirst_good {f : Int} (hf0 : 0 ≤ f) (hf100 : f ≤ 100) (s : Int) (e : Int) :
    applyFirst (some f) 100 s (some e) = .ok (some (min e (s + f))) := by
  simp only [applyFirst]
  rw [if_neg (by omega : ¬ f < 0), if_neg (by omega : ¬ f > 100)]

/-- C5: `from_nodes` fails with the `ValueError`-class error whenever the
supplied `first` is negative or above the fixed bound 100, and likewise for
`last` (once `first` itself passes validation, which runs first). -/
theorem from_nodes_first_last_validation {α : Type} (nodes : List α) (sized : Bool)
    (total_count : Option Int) (first last : Option Int)
    (h : (∃ f, first = some f ∧ (f > 100 ∨ f < 0)) ∨
      ((∀ f, first = some f → 0 ≤ f ∧ f ≤ 100) ∧
        ∃ l, last = some l ∧ (l > 100 ∨ l < 0))) :
    from_nodes nodes sized total_count none none first last = .error .valueError := by
  have hnone : decodeCursorArg (none : Option StrB) = .ok none := rfl
  rcases h with ⟨f, rfl, hf⟩ | ⟨hfok, l, rfl, hl⟩
  · simp only [from_nodes, hnone, applyFirst_bad hf]
  · cases first with
    | none =>
        simp only [from_nodes, hnone, applyFirst, applyLast_bad hl]
    | some f =>
        obtain ⟨hf0, hf100⟩ := hfok f rfl
        simp only [from_nodes, hnone, applyFirst_good hf0 hf100, applyLast_bad hl]

/-- C5 witness: `first = 101` (and, for the `last` disjunct, `last = 101`
with `first` absent) is rejected with the `ValueError`-class failure. -/
theorem from_nodes_first_last_validation_witness :
    from_nodes [0] true none none none (some 101) none = .error .valueError ∧
    from_nodes [0] true none none none none (some 101) = .error .valueError :=
  ⟨from_nodes_first_last_validation [0] true none (some 101) none
      (Or.inl ⟨101, rfl, Or.inl (by omega)⟩),
    from_nodes_first_last_validation [0] true none none (some 101)
      (Or.inr ⟨(fun f hf => Option.noConfusion hf), 101, rfl, Or.inl (by omega)⟩)⟩

/-! ## Claim C9: cursor namespace mismatch is an assertion failure -/

/-- C9: a non-empty `before` or `after` token that decodes under a namespace
other than `"arrayconnection"` makes `from_nodes` fail with the
assertion-style error — not a recoverable page, not a `ValueError`. -/
theorem from_nodes_namespace_assert {α : Type} (nodes : List α) (sized : Bool)
    (total_count : Option Int) (first last : Option Int) (s ns payload : StrB)
    (hdec : from_base64 s = .ok (ns, payload)) (hns : ns ≠ connection_typename) :
    from_nodes nodes sized total_count none (some s) first last =
        .error .assertionError ∧
    from_nodes nodes sized total_count (some s) none first last =
        .error .assertionError := by
  have hsnil : s ≠ [] := by
    intro h
    rw [h, show from_base64 [] = .error .valueError from rfl] at hdec
    exact Except.noConfusion hdec
  have hnone : decodeCursorArg (none : Option StrB) = .ok none := rfl
  have hda : decodeCursorArg (some s) = .error .assertionError := by
    simp only [decodeCursorArg]
    rw [if_neg hsnil]
    simp only [hdec]
    rw [if_neg hns]
  constructor
  · simp only [from_nodes, hda]
  · simp only [from_nodes, hnone, hda]

/-- C9 witness: a token encoding `("f", "1")` trips the namespace assert as
either `after` or `before`. -/
theorem from_nodes_namespace_assert_witness :
    from_nodes [0] true none none (some (to_base64 [102] [49])) none none =
        .error .assertionError ∧
    from_nodes [0] true none (some (to_base64 [102] [49])) none none none =
        .error .assertionError :=
  from_nodes_namespace_assert [0] true none none none (to_base64 [102] [49])
    [102] [49] (by decide) (by decide)

/-! ## Claim C6: `first = 0` -/

/-- With no cursors, `from_nodes` is the validation pipeline applied to the
initial window `start = 0`, `end = total_count`-or-`maxsize`. -/
theorem from_nodes_no_cursors {α : Type} (nodes : List α) (sized : Bool)
    (tc : Option Int) (first last : Option Int) :
    from_nodes nodes sized tc none none first last =
      (let tc2 : Option Int := if tc = none ∧ sized then some (nodes.length : Int) else tc
       let e0 : Int := match tc2 with | some t => t | none => maxsize
       match applyFirst first 100 0 (some e0) with
       | .error e => .error e
       | .ok end2 =>
           match applyLast last 100 nodes.length 0 end2 tc2 sized with
           | .error e => .error e
           | .ok (start2, end3, tc3, sized2) => buildPage nodes sized2 tc3 start2 end3) :=
  rfl

theorem buildPage_first_zero {α : Type} (nodes : List α) (sized : Bool)
    (tc : Option Int) :
    ∃ c, buildPage nodes sized tc 0 (some 0) = .ok c ∧ c.edges = [] ∧
      (c.page_info.has_next_page = true ↔ 0 < nodes.length) ∧
      c.page_info.has_previous_page = false ∧ c.total_count = tc := by
  cases nodes with
  | nil =>
      cases sized
      · exact ⟨⟨⟨false, false, none, none⟩, [], tc⟩, rfl, rfl, by simp, rfl, rfl⟩
      · exact ⟨⟨⟨false, false, none, none⟩, [], tc⟩, rfl, rfl, by simp, rfl, rfl⟩
  | cons x xs =>
      cases sized
      · exact ⟨⟨⟨true, false, none, none⟩, [], tc⟩, rfl, rfl, by simp, rfl, rfl⟩
      · exact ⟨⟨⟨true, false, none, none⟩, [], tc⟩, rfl, rfl, by simp, rfl, rfl⟩

/-- C6: `first = 0` returns a page with zero edges, and `has_next_page` is
true exactly when the collection is non-empty (for a consistent or absent
pre-supplied `total_count`, on sized and unsized collections alike). -/
theorem from_nodes_first_zero {α : Type} (nodes : List α) (sized : Bool)
    (total_count : Option Int)
    (htc : total_count = none ∨ total_count = some (nodes.length : Int)) :
    ∃ c, from_nodes nodes sized total_count none none (some 0) none = .ok c ∧
      c.edges = [] ∧ (c.page_info.has_next_page = true ↔ 0 < nodes.length) := by
  rw [from_nodes_no_cursors]
  simp only
  have hmin : ∀ e0 : Int, 0 ≤ e0 →
      applyFirst (some 0) 100 0 (some e0) = .ok (some 0) := by
    intro e0 he
    rw [applyFirst_good (by omega) (by omega)]
    simp
    omega
  rcases htc with rfl | rfl
  · cases sized
    · rw [if_neg (by simp)]
      simp only
      rw [hmin maxsize (by simp [maxsize])]
      simp only [applyLast]
      obtain ⟨c, hc, h1, h2, -, -⟩ := buildPage_first_zero nodes false none
      exact ⟨c, hc, h1, h2⟩
    · rw [if_pos (by simp)]
      simp only
      rw [hmin (nodes.length : Int) (by omega)]
      simp only [applyLast]
      obtain ⟨c, hc, h1, h2, -, -⟩ := buildPage_first_zero nodes true (some (nodes.length : Int))
      exact ⟨c, hc, h1, h2⟩
  · rw [if_neg (by simp)]
    simp only
    rw [hmin (nodes.length : Int) (by omega)]
    simp only [applyLast]
    obtain ⟨c, hc, h1, h2, -, -⟩ := buildPage_first_zero nodes sized (some (nodes.length : Int))
    exact ⟨c, hc, h1, h2⟩

/-- C6 witness: `first = 0` on the three-element sized collection `[3]`;
zero edges and a next page. -/
theorem from_nodes_first_zero_witness :
    ∃ c, from_nodes [3] true none none none (some 0) none = .ok c ∧
      c.edges = [] ∧ (c.page_info.has_next_page = true ↔ 0 < [3].length) :=
  from_nodes_first_zero [3] true none (Or.inl rfl)

/-! ## Evaluating `buildPage` on the four window shapes -/

/-- The page built from slicing window `[start, e+1)` (both bounds already
non-negative): the common result shape of `buildPage` for a bounded end. -/
def pageFor {α : Type} (nodes : List α) (tc : Option Int) (start e : Int) :
    ConnectionB α :=
  let sliced := (nodes.take (e + 1).toNat).drop start.toNat
  let edges0 := sliced.enum.map fun p => Edge.from_node p.2 (start + (p.1 : Int))
  let pair2 : List (EdgeB α) × Bool :=
    if (edges0.length : Int) = (e - start) + 1 then (edges0.dropLast, true)
    else (edges0, false)
  { page_info :=
      { has_next_page := pair2.2
        has_previous_page := decide (start > 0)
        start_cursor := pair2.1.head?.map EdgeB.cursor
        end_cursor := pair2.1.getLast?.map EdgeB.cursor }
    edges := pair2.1
    total_count := tc }

/-- The page built from the open-ended window `[start, ∞)`. -/
def pageForNone {α : Type} (nodes : List α) (tc : Option Int) (start : Int) :
    ConnectionB α :=
  let sliced := nodes.drop start.toNat
  let edges0 := sliced.enum.map fun p => Edge.from_node p.2 (start + (p.1 : Int))
  let pair2 : List (EdgeB α) × Bool :=
    if (edges0.length : Int) = |start| + 1 then (edges0.dropLast, true)
    else (edges0, false)
  { page_info :=
      { has_next_page := pair2.2
        has_previous_page := decide (start > 0)
        start_cursor := pair2.1.head?.map EdgeB.cursor
        end_cursor := pair2.1.getLast?.map EdgeB.cursor }
    edges := pair2.1
    total_count := tc }

theorem slice_if_ok {α : Type} (nodes : List α) (sized : Bool) {a b : Int}
    (ha : 0 ≤ a) (hb : 0 ≤ b) :
    (if sized then Except.ok (pySlice nodes a (some b)) else isliceM nodes a (some b) :
        Except PagError (List α)) = .ok ((nodes.take b.toNat).drop a.toNat) := by
  cases sized
  · rw [if_neg (by simp), isliceM_nonneg nodes ha hb]
  · rw [if_pos rfl, pySlice_nonneg nodes ha hb]

theorem slice_if_none_ok {α : Type} (nodes : List α) (sized : Bool) {a : Int}
    (ha : 0 ≤ a) :
    (if sized then Except.ok (pySlice nodes a none) else isliceM nodes a none :
        Except PagError (List α)) = .ok (nodes.drop a.toNat) := by
  cases sized
  · rw [if_neg (by simp), isliceM_none_nonneg nodes ha]
  · rw [if_pos rfl, pySlice_none_nonneg nodes ha]

theorem buildPage_eval_some {α : Type} (nodes : List α) (sized : Bool)
    (tc : Option Int) {start e : Int} (hs : 0 ≤ start) (he : 0 ≤ e)
    (hne : e ≠ maxsize) (hee : e - start ≤ 100) :
    buildPage nodes sized tc start (some e) = .ok (pageFor nodes tc start e) := by
  simp only [buildPage]
  rw [if_neg (show ¬ ((some e : Option Int) = some maxsize) by simpa using hne)]
  simp only
  rw [if_neg (show ¬ (e - start > 100) by omega)]
  simp only [Option.map_some']
  rw [slice_if_ok nodes sized hs (by omega : (0:Int) ≤ e + 1)]
  simp only [pageFor]

theorem buildPage_eval_clamped {α : Type} (nodes : List α) (sized : Bool)
    (tc : Option Int) {start e : Int} (hs : 0 ≤ start)
    (h : e = maxsize ∨ 100 < e - start) :
    buildPage nodes sized tc start (some e) =
      .ok (pageFor nodes tc start (start + 100)) := by
  simp only [buildPage]
  by_cases hm : e = maxsize
  · rw [if_pos (show (some e : Option Int) = some maxsize from by rw [hm])]
    simp only
    rw [if_neg (show ¬ (start + 100 - start > 100) by omega)]
    simp only [Option.map_some']
    rw [slice_if_ok nodes sized hs (by omega : (0:Int) ≤ start + 100 + 1)]
    simp only [pageFor]
  · rcases h with h | h
    · exact absurd h hm
    · rw [if_neg (show ¬ ((some e : Option Int) = some maxsize) from by simpa using hm)]
      simp only
      rw [if_pos (show e - start > 100 by omega)]
      simp only [Option.map_some']
      rw [slice_if_ok nodes sized hs (by omega : (0:Int) ≤ start + 100 + 1)]
      simp only [pageFor]
      rw [show start + 100 - start = 100 from by omega]

theorem buildPage_eval_none {α : Type} (nodes : List α) (sized : Bool)
    (tc : Option Int) {start : Int} (hs : 0 ≤ start) (hst : |start| ≤ 100) :
    buildPage nodes sized tc start none = .ok (pageForNone nodes tc start) := by
  simp only [buildPage]
  rw [if_neg (show ¬ ((none : Option Int) = some maxsize) by simp)]
  simp only
  rw [if_neg (show ¬ (|start| > 100) by omega)]
  simp only [Option.map_none']
  rw [slice_if_none_ok nodes sized hs]
  simp only [pageForNone]

theorem buildPage_eval_none_clamped {α : Type} (nodes : List α) (sized : Bool)
    (tc : Option Int) {start : Int} (hs : 0 ≤ start) (hst : 100 < |start|) :
    buildPage nodes sized tc start none =
      .ok (pageFor nodes tc start (start + 100)) := by
  simp only [buildPage]
  rw [if_neg (show ¬ ((none : Option Int) = some maxsize) by simp)]
  simp only
  rw [if_pos (show |start| > 100 by omega)]
  simp only [Option.map_some']
  rw [slice_if_ok nodes sized hs (by omega : (0:Int) ≤ start + 100 + 1)]
  simp only [pageFor]
  rw [show start + 100 - start = 100 from by omega]

theorem edgesFrom_length {α : Type} (sliced : List α) (start : Int) :
    ((sliced.enum.map fun p => Edge.from_node p.2 (start + (p.1 : Int))).length) =
      sliced.length := by
  rw [List.length_map, List.enum_length]

/-! ## Claim C1: no pagination arguments -/

theorem maxsize_eq : maxsize = 9223372036854775807 := by norm_num [maxsize]

/-- C1: on a sized collection of size `n` with no pagination arguments (and
an absent or consistent pre-supplied `total_count`), the page has exactly
`min n 100` edges, `has_previous_page = false`, and `has_next_page` exactly
when `n > 100`. -/
theorem from_nodes_defaults {α : Type} (nodes : List α) (total_count : Option Int)
    (htc : total_count = none ∨ total_count = some (nodes.length : Int)) :
    ∃ c, from_nodes nodes true total_count none none none none = .ok c ∧
      c.edges.length = min nodes.length 100 ∧
      c.page_info.has_previous_page = false ∧
      (c.page_info.has_next_page = true ↔ 100 < nodes.length) := by
  have key : from_nodes nodes true total_count none none none none =
      buildPage nodes true (some (nodes.length : Int)) 0 (some (nodes.length : Int)) := by
    rcases htc with rfl | rfl
    · rfl
    · rfl
  rw [key]
  by_cases h100 : nodes.length ≤ 100
  · rw [buildPage_eval_some nodes true _ (by omega) (by omega)
      (by rw [maxsize_eq]; omega) (by omega)]
    have h1 : ((nodes.length : Int) + 1).toNat = nodes.length + 1 := by omega
    refine ⟨_, rfl, ?_, ?_, ?_⟩
    · simp only [pageFor, h1, Int.toNat_zero, List.drop_zero,
        List.take_of_length_le (show nodes.length ≤ nodes.length + 1 by omega),
        edgesFrom_length]
      rw [if_neg (by omega)]
      simp only [edgesFrom_length]
      omega
    · rfl
    · simp only [pageFor, h1, Int.toNat_zero, List.drop_zero,
        List.take_of_length_le (show nodes.length ≤ nodes.length + 1 by omega),
        edgesFrom_length]
      rw [if_neg (by omega)]
      exact iff_of_false (by simp) (by omega)
  · rw [buildPage_eval_clamped nodes true _ (by omega)
      (by
        by_cases hm : (nodes.length : Int) = maxsize
        · exact Or.inl hm
        · exact Or.inr (by omega))]
    have h1 : ((0 : Int) + 100 + 1).toNat = 101 := by decide
    have h2 : ((nodes.take 101).length : Int) = (0 : Int) + 100 - 0 + 1 := by
      rw [List.length_take]
      omega
    refine ⟨_, rfl, ?_, ?_, ?_⟩
    · simp only [pageFor, h1, Int.toNat_zero, List.drop_zero, edgesFrom_length]
      rw [if_pos h2]
      simp only [List.length_dropLast, edgesFrom_length, List.length_take]
      omega
    · rfl
    · simp only [pageFor, h1, Int.toNat_zero, List.drop_zero, edgesFrom_length]
      rw [if_pos h2]
      exact iff_of_true rfl (by omega)

/-- C1 witness: a five-element collection paginated with no arguments. -/
theorem from_nodes_defaults_witness :
    ∃ c, from_nodes [0, 1, 2, 3, 4] true none none none none none = .ok c ∧
      c.edges.length = min [0, 1, 2, 3, 4].length 100 ∧
      c.page_info.has_previous_page = false ∧
      (c.page_info.has_next_page = true ↔ 100 < [0, 1, 2, 3, 4].length) :=
  from_nodes_defaults [0, 1, 2, 3, 4] none (Or.inl rfl)

/-! ## Claim C3: paging with `after` cursors -/

theorem b64encode_ne_nil (a : Nat) (l : List Nat) : b64encode (a :: l) ≠ [] := by
  match l with
  | [] => simp [b64encode]
  | [b] => simp [b64encode]
  | b :: c :: rest => simp [b64encode]

theorem mkCursor_ne_nil (k : Int) : mkCursor k ≠ [] := by
  intro h
  rw [show mkCursor k = b64encode
    (97 :: ([114, 114, 97, 121, 99, 111, 110, 110, 101, 99, 116, 105, 111, 110] ++
      58 :: intToDec k)) from rfl] at h
  exact b64encode_ne_nil _ _ h

theorem from_base64_mkCursor (k : Int) :
    from_base64 (mkCursor k) = .ok (connection_typename, intToDec k) :=
  from_base64_to_base64 connection_typename (intToDec k) (by decide)
    (fun b hb => (intToDec_bytes k b hb).1) (by decide)
    (fun h => (intToDec_bytes k 58 h).2 rfl) (by decide) (intToDec_ne_nil k)

theorem decodeCursorArg_mkCursor (k : Int) :
    decodeCursorArg (some (mkCursor k)) = .ok (some k) := by
  simp only [decodeCursorArg]
  rw [if_neg (mkCursor_ne_nil k)]
  simp only [from_base64_mkCursor, pyInt_intToDec, eq_self_iff_true, if_true]

/-- `from_nodes` with only an `after` argument, expressed through the
decoded cursor. -/
theorem from_nodes_after_window {α : Type} (nodes : List α) (a : StrB) :
    from_nodes nodes true none none (some a) none none =
      (match decodeCursorArg (some a) with
       | .error e => .error e
       | .ok afterK =>
           buildPage nodes true (some (nodes.length : Int))
             (match afterK with | some kk => kk + 1 | none => 0)
             (some (nodes.length : Int))) := rfl

theorem head?_dropLast_of {β : Type} (l : List β) (h : 2 ≤ l.length) :
    l.dropLast.head? = l.head? := by
  match l, h with
  | a :: b :: rest, _ => simp

theorem edgesFrom_head {α : Type} (sliced : List α) (start : Int) :
    (sliced.enum.map fun p => Edge.from_node p.2 (start + (p.1 : Int))).head? =
      sliced.head?.map fun v => Edge.from_node v start := by
  cases sliced with
  | nil => rfl
  | cons x xs =>
      show some (Edge.from_node x (start + ((0 : Nat) : Int))) =
        some (Edge.from_node x start)
      norm_num

/-- The window starting at absolute offset `k + 1` surfaces `nodes[k+1]` as
its first edge, with cursor `mkCursor (k+1)`, and reports a previous page. -/
theorem pageFor_head {α : Type} (nodes : List α) (tc : Option Int) (k : Nat) (e : Int)
    (hk : k + 1 < nodes.length) (hke : (k : Int) + 2 ≤ e) :
    (pageFor nodes tc ((k : Int) + 1) e).edges.head?.map EdgeB.node =
        some (nodes.get ⟨k + 1, hk⟩) ∧
    (pageFor nodes tc ((k : Int) + 1) e).edges.head?.map EdgeB.cursor =
        some (mkCursor ((k : Int) + 1)) ∧
    (pageFor nodes tc ((k : Int) + 1) e).page_info.has_previous_page = true := by
  have htn : ((k : Int) + 1).toNat = k + 1 := by omega
  have hsl : ((nodes.take (e + 1).toNat).drop (k + 1)).head? =
      some (nodes.get ⟨k + 1, hk⟩) := by
    rw [List.head?_drop, List.getElem?_take, if_pos (by omega : k + 1 < (e + 1).toNat),
      List.getElem?_eq_getElem hk]
    simp
  simp only [pageFor, htn, edgesFrom_length]
  by_cases hif : ((((nodes.take (e + 1).toNat).drop (k + 1)).length : Nat) : Int) =
      e - ((k : Int) + 1) + 1
  · rw [if_pos hif]
    have hlen2 : 2 ≤ ((nodes.take (e + 1).toNat).drop (k + 1)).length := by omega
    rw [head?_dropLast_of _ (by rw [edgesFrom_length]; exact hlen2), edgesFrom_head, hsl]
    refine ⟨rfl, rfl, ?_⟩
    simp only [decide_eq_true_eq]
    omega
  · rw [if_neg hif]
    rw [edgesFrom_head, hsl]
    refine ⟨rfl, rfl, ?_⟩
    simp only [decide_eq_true_eq]
    omega

/-- C3: paging with `after = cursor(k)` (for `0 ≤ k < n - 1`) returns a page
whose first edge is `C[k+1]` with cursor encoding the absolute offset `k+1`
and `has_previous_page = true`; and the spec's chained scenario
(`["a".."e"]`, `after = cursor(1), first = 2`) yields the edges for
`"c","d"` with both `has_next_page` and `has_previous_page` true. -/
theorem from_nodes_after_cursor {α : Type} (nodes : List α) (k : Nat)
    (hk : k + 1 < nodes.length) :
    (∃ c, from_nodes nodes true none none (some (mkCursor (k : Int))) none none =
        .ok c ∧
      c.edges.head?.map EdgeB.node = some (nodes.get ⟨k + 1, hk⟩) ∧
      c.edges.head?.map EdgeB.cursor = some (mkCursor ((k : Int) + 1)) ∧
      c.page_info.has_previous_page = true) ∧
    from_nodes [10, 20, 30, 40, 50] true none none (some (mkCursor 1)) (some 2) none =
      .ok ⟨⟨true, true, some (mkCursor 2), some (mkCursor 3)⟩,
        [⟨mkCursor 2, 30⟩, ⟨mkCursor 3, 40⟩], some 5⟩ := by
  constructor
  · rw [from_nodes_after_window, decodeCursorArg_mkCursor]
    simp only
    by_cases hcl : (nodes.length : Int) = maxsize ∨
        100 < (nodes.length : Int) - ((k : Int) + 1)
    · rw [buildPage_eval_clamped nodes true _ (by omega) hcl]
      exact ⟨_, rfl, pageFor_head nodes _ k _ hk (by omega)⟩
    · push_neg at hcl
      rw [buildPage_eval_some nodes true _ (by omega) (by omega) hcl.1 (by omega)]
      exact ⟨_, rfl, pageFor_head nodes _ k _ hk (by omega)⟩
  · decide

/-- C3 witness: `after = cursor(0)` on a three-element collection surfaces
the second element first. -/
theorem from_nodes_after_cursor_witness :
    (∃ c, from_nodes [10, 20, 30] true none none (some (mkCursor (0 : Nat))) none none =
        .ok c ∧
      c.edges.head?.map EdgeB.node = some ([10, 20, 30].get ⟨1, by decide⟩) ∧
      c.edges.head?.map EdgeB.cursor = some (mkCursor (((0 : Nat) : Int) + 1)) ∧
      c.page_info.has_previous_page = true) ∧
    from_nodes [10, 20, 30, 40, 50] true none none (some (mkCursor 1)) (some 2) none =
      .ok ⟨⟨true, true, some (mkCursor 2), some (mkCursor 3)⟩,
        [⟨mkCursor 2, 30⟩, ⟨mkCursor 3, 40⟩], some 5⟩ :=
  from_nodes_after_cursor [10, 20, 30] 0 (by decide)

/-! ## Claim C4: `last = n` -/

theorem edgesFrom_map_node {α : Type} (sliced : List α) (start : Int) :
    ((sliced.enum.map fun p => Edge.from_node p.2 (start + (p.1 : Int))).map
      EdgeB.node) = sliced := by
  rw [List.map_map]
  have h : (EdgeB.node ∘ fun p : Nat × α => Edge.from_node p.2 (start + (p.1 : Int))) =
      Prod.snd := by
    funext p
    rfl
  rw [h, List.enum_map_snd]

/-- C4 counterexample: as stated the claim fails twice.  On a sized
101-element collection, `last = 101` is rejected by the max-page-size
validation instead of returning all 101 edges; and on an unsized one-element
iterable, `last = 1` returns zero edges with `has_next_page = true` (the
overfetch check fires on the open-ended window) instead of the single edge. -/
theorem from_nodes_last_counterexample :
    from_nodes (List.replicate 101 (0 : Nat)) true none none none none (some 101) =
      .error .valueError ∧
    from_nodes [(0 : Nat)] false none none none none (some 1) =
      .ok ⟨⟨true, false, none, none⟩, [], some 1⟩ := by
  constructor
  · decide
  · decide

/-- C4 (amended): for `n ≤ 100`, `last = n` with no other arguments returns
all `n` edges in order with `has_previous_page = false` on a sized
collection; on an unsized iterable (count obtained by materializing it) the
same holds provided `n ≠ 1`. -/
theorem from_nodes_last_all {α : Type} (nodes : List α) (h100 : nodes.length ≤ 100) :
    (∃ c, from_nodes nodes true none none none none (some (nodes.length : Int)) =
        .ok c ∧
      c.edges.map EdgeB.node = nodes ∧ c.page_info.has_previous_page = false) ∧
    (nodes.length ≠ 1 →
      ∃ c, from_nodes nodes false none none none none (some (nodes.length : Int)) =
          .ok c ∧
        c.edges.map EdgeB.node = nodes ∧ c.page_info.has_previous_page = false) := by
  constructor
  · have key : from_nodes nodes true none none none none (some (nodes.length : Int)) =
        (match applyLast (some (nodes.length : Int)) 100 nodes.length 0
            (some (nodes.length : Int)) (some (nodes.length : Int)) true with
         | .error e => .error e
         | .ok (s2, e3, tc2, sz2) => buildPage nodes sz2 tc2 s2 e3) := rfl
    have hal : applyLast (some (nodes.length : Int)) 100 nodes.length 0
        (some (nodes.length : Int)) (some (nodes.length : Int)) true =
        .ok (0, some (nodes.length : Int), some (nodes.length : Int), true) := by
      simp only [applyLast]
      rw [if_neg (by omega), if_neg (by omega),
        if_neg (show ¬ ((some (nodes.length : Int) : Option Int) = some maxsize) by
          simp only [Option.some.injEq, maxsize_eq]
          omega)]
      rw [sub_self, max_self]
    rw [key, hal]
    simp only
    rw [buildPage_eval_some nodes true _ (by omega) (by omega)
      (by rw [maxsize_eq]; omega) (by omega)]
    have h1 : ((nodes.length : Int) + 1).toNat = nodes.length + 1 := by omega
    refine ⟨_, rfl, ?_, rfl⟩
    simp only [pageFor, h1, Int.toNat_zero, List.drop_zero,
      List.take_of_length_le (show nodes.length ≤ nodes.length + 1 by omega),
      edgesFrom_length]
    rw [if_neg (by omega)]
    exact edgesFrom_map_node nodes 0
  · intro hn1
    have key : from_nodes nodes false none none none none (some (nodes.length : Int)) =
        (match applyLast (some (nodes.length : Int)) 100 nodes.length 0
            (some maxsize) none false with
         | .error e => .error e
         | .ok (s2, e3, tc2, sz2) => buildPage nodes sz2 tc2 s2 e3) := rfl
    have hal : applyLast (some (nodes.length : Int)) 100 nodes.length 0
        (some maxsize) none false =
        .ok (0, none, some (nodes.length : Int), true) := by
      simp only [applyLast]
      rw [if_neg (by omega), if_neg (by omega), if_pos trivial]
      rw [sub_self, max_self]
    rw [key, hal]
    simp only
    rw [buildPage_eval_none nodes true _ (by omega) (by simp)]
    refine ⟨_, rfl, ?_, rfl⟩
    simp only [pageForNone, Int.toNat_zero, List.drop_zero, edgesFrom_length]
    rw [if_neg (show ¬ ((nodes.length : Int) = |(0 : Int)| + 1) by
      simp only [abs_zero]
      omega)]
    exact edgesFrom_map_node nodes 0

/-- C4 witness: `last = 2` on the two-element collection `[5, 6]`, sized and
unsized. -/
theorem from_nodes_last_all_witness :
    (∃ c, from_nodes [5, 6] true none none none none (some ([5, 6].length : Int)) =
        .ok c ∧
      c.edges.map EdgeB.node = [5, 6] ∧ c.page_info.has_previous_page = false) ∧
    ([5, 6].length ≠ 1 →
      ∃ c, from_nodes [5, 6] false none none none none (some ([5, 6].length : Int)) =
          .ok c ∧
        c.edges.map EdgeB.node = [5, 6] ∧ c.page_info.has_previous_page = false) :=
  from_nodes_last_all [5, 6] (by decide)

/-! ## Claim C8: `resolve_node` delegation and `ensure_type` enforcement -/

/-- C8: `GlobalID.resolve_node` delegates to the resolved type's callback
invoked with `required = (required or ensure_type is not None)` — the
outcome depends on the callback only through its value at that flag — and a
supplied `ensure_type` is enforced when the entity becomes available: a
synchronous mismatching entity raises `TypeError` immediately, a deferred
one raises it inside the wrapping coroutine (matching entities pass
through in both cases). -/
theorem resolve_node_spec (registry : StrB → Option ResolverCb) (g : GlobalID)
    (cb cb2 : ResolverCb) (required : Bool) (ensure_type : Option (List Nat))
    (hreg : registry g.type_name = some cb)
    (hagree : cb g.node_id (required || ensure_type.isSome) =
      cb2 g.node_id (required || ensure_type.isSome)) :
    GlobalID.resolve_node registry g required ensure_type =
        .ok (resolveNodeWith cb g.node_id required ensure_type) ∧
    resolveNodeWith cb g.node_id required ensure_type =
        resolveNodeWith cb2 g.node_id required ensure_type ∧
    (∀ e tags, ensure_type = some tags →
      cb g.node_id true = .value (some e) →
      resolveNodeWith cb g.node_id required ensure_type =
        (if isinst e tags then .value (some e) else .typeError)) ∧
    (∀ e tags, ensure_type = some tags →
      cb g.node_id true = .deferred (some e) →
      resolveNodeWith cb g.node_id required ensure_type =
        .deferredValue (if isinst e tags then .ok (some e) else .error ())) := by
  refine ⟨?_, ?_, ?_, ?_⟩
  · simp only [GlobalID.resolve_node, hreg]
  · simp only [resolveNodeWith, hagree]
  · rintro e tags rfl hcb
    simp only [resolveNodeWith, Option.isSome_some, Bool.or_true, hcb]
  · rintro e tags rfl hcb
    simp only [resolveNodeWith, Option.isSome_some, Bool.or_true, hcb]

/-- C8 witness: a registry holding one type whose callback produces an
entity of class tag 5 synchronously, checked against `ensure_type`
accepting tags 5 or 7. -/
theorem resolve_node_spec_witness :
    GlobalID.resolve_node (fun _ => some fun _ _ => .value (some ⟨5⟩))
        ⟨[84], [49]⟩ false (some [5, 7]) =
      .ok (resolveNodeWith (fun _ _ => .value (some ⟨5⟩)) [49] false (some [5, 7])) ∧
    resolveNodeWith (fun _ _ => .value (some ⟨5⟩)) [49] false (some [5, 7]) =
      resolveNodeWith (fun _ _ => .value (some ⟨5⟩)) [49] false (some [5, 7]) ∧
    (∀ e tags, (some [5, 7] : Option (List Nat)) = some tags →
      AwaitableOrValue.value (some (⟨5⟩ : Entity)) = .value (some e) →
      resolveNodeWith (fun _ _ => .value (some ⟨5⟩)) [49] false (some [5, 7]) =
        (if isinst e tags then .value (some e) else .typeError)) ∧
    (∀ e tags, (some [5, 7] : Option (List Nat)) = some tags →
      AwaitableOrValue.value (some (⟨5⟩ : Entity)) = .deferred (some e) →
      resolveNodeWith (fun _ _ => .value (some ⟨5⟩)) [49] false (some [5, 7]) =
        .deferredValue (if isinst e tags then .ok (some e) else .error ())) :=
  resolve_node_spec (fun _ => some fun _ _ => .value (some ⟨5⟩)) ⟨[84], [49]⟩
    (fun _ _ => .value (some ⟨5⟩)) (fun _ _ => .value (some ⟨5⟩)) false (some [5, 7])
    rfl rfl

/-! ## Claim C10: the page never exceeds the maximum page size -/

/-- `from_nodes`, restated as its validation/window pipeline (definitional). -/
theorem from_nodes_pipeline {α : Type} (nodes : List α) (sized : Bool)
    (tc : Option Int) (before after : Option StrB) (first last : Option Int) :
    from_nodes nodes sized tc before after first last =
      (match decodeCursorArg after with
       | .error e => .error e
       | .ok afterK =>
         match decodeCursorArg before with
         | .error e => .error e
         | .ok beforeK =>
           match applyFirst first 100
               (match afterK with | some k => k + 1 | none => 0)
               (match beforeK with
                | some k => some k
                | none => some (match
                    (if tc = none ∧ sized then some (nodes.length : Int) else tc) with
                    | some t => t
                    | none => maxsize)) with
           | .error e => .error e
           | .ok end2 =>
             match applyLast last 100 nodes.length
                 (match afterK with | some k => k + 1 | none => 0) end2
                 (if tc = none ∧ sized then some (nodes.length : Int) else tc)
                 sized with
             | .error e => .error e
             | .ok (s2, e3, tc3, sz2) => buildPage nodes sz2 tc3 s2 e3) := rfl

theorem pageFor_len_le {α : Type} (nodes : List α) (tc : Option Int) (start e : Int)
    (hs : 0 ≤ start) (hee : e - start ≤ 100) :
    (pageFor nodes tc start e).edges.length ≤ 100 := by
  have hL : ((nodes.take (e + 1).toNat).drop start.toNat).length =
      min (e + 1).toNat nodes.length - start.toNat := by
    rw [List.length_drop, List.length_take]
  simp only [pageFor, edgesFrom_length]
  by_cases hif : ((((nodes.take (e + 1).toNat).drop start.toNat).length : Nat) : Int) =
      e - start + 1
  · rw [if_pos hif]
    simp only [List.length_dropLast, edgesFrom_length]
    omega
  · rw [if_neg hif]
    simp only [edgesFrom_length]
    rw [hL] at hif ⊢
    omega

theorem pageForNone_len_le {α : Type} (nodes : List α) (tc : Option Int) (start : Int)
    (hs : 0 ≤ start) (hn : (nodes.length : Int) ≤ start + 100) :
    (pageForNone nodes tc start).edges.length ≤ 100 := by
  have hL : (nodes.drop start.toNat).length = nodes.length - start.toNat := by
    rw [List.length_drop]
  simp only [pageForNone, edgesFrom_length]
  by_cases hif : (((nodes.drop start.toNat).length : Nat) : Int) = |start| + 1
  · rw [if_pos hif]
    simp only [List.length_dropLast, edgesFrom_length]
    omega
  · rw [if_neg hif]
    simp only [edgesFrom_length]
    rw [hL]
    omega

theorem buildPage_len_le {α : Type} (nodes : List α) (sized : Bool) (tc : Option Int)
    (start : Int) (end0 : Option Int) (hs : 0 ≤ start)
    (he : ∀ e, end0 = some e → 0 ≤ e)
    (hn : end0 = none → (nodes.length : Int) ≤ start + 100)
    (c : ConnectionB α) (hok : buildPage nodes sized tc start end0 = .ok c) :
    c.edges.length ≤ 100 := by
  cases end0 with
  | none =>
      by_cases habs : |start| ≤ 100
      · rw [buildPage_eval_none nodes sized tc hs habs] at hok
        cases hok
        exact pageForNone_len_le nodes tc start hs (hn rfl)
      · rw [buildPage_eval_none_clamped nodes sized tc hs (by omega)] at hok
        cases hok
        exact pageFor_len_le nodes tc start (start + 100) hs (by omega)
  | some e =>
      have he0 : 0 ≤ e := he e rfl
      by_cases hcl : e = maxsize ∨ 100 < e - start
      · rw [buildPage_eval_clamped nodes sized tc hs hcl] at hok
        cases hok
        exact pageFor_len_le nodes tc start (start + 100) hs (by omega)
      · push_neg at hcl
        rw [buildPage_eval_some nodes sized tc hs he0 hcl.1 (by omega)] at hok
        cases hok
        exact pageFor_len_le nodes tc start e hs (by omega)

theorem applyFirst_window {first : Option Int} {mr s : Int} {e0 e2 : Option Int}
    (hE : ∀ e, e0 = some e → 0 ≤ e) (hs : 0 ≤ s) (hne : e0 ≠ none)
    (h : applyFirst first mr s e0 = .ok e2) :
    (∀ e, e2 = some e → 0 ≤ e) ∧ e2 ≠ none := by
  cases first with
  | none =>
      simp only [applyFirst] at h
      cases h
      exact ⟨hE, hne⟩
  | some f =>
      simp only [applyFirst] at h
      by_cases h1 : f < 0
      · rw [if_pos h1] at h
        exact Except.noConfusion h
      · rw [if_neg h1] at h
        by_cases h2 : f > mr
        · rw [if_pos h2] at h
          exact Except.noConfusion h
        · rw [if_neg h2] at h
          cases he0 : e0 with
          | none => exact absurd he0 hne
          | some e =>
              rw [he0] at h
              simp only [] at h
              cases h
              have h0e : 0 ≤ e := hE e he0
              refine ⟨?_, by simp⟩
              intro x hx
              injection hx with hx
              subst hx
              omega

theorem applyLast_window {last : Option Int} {n : Nat} {s : Int} {e2 : Option Int}
    {tc : Option Int} {sized : Bool} {s2 : Int} {e3 tc3 : Option Int} {sz2 : Bool}
    (hs : 0 ≤ s) (hE : ∀ e, e2 = some e → 0 ≤ e) (hne : e2 ≠ none)
    (htc : tc = none ∨ tc = some (n : Int))
    (h : applyLast last 100 n s e2 tc sized = .ok (s2, e3, tc3, sz2)) :
    0 ≤ s2 ∧ (∀ e, e3 = some e → 0 ≤ e) ∧ (e3 = none → (n : Int) ≤ s2 + 100) := by
  cases last with
  | none =>
      simp only [applyLast] at h
      cases h
      exact ⟨hs, hE, fun hnone => absurd hnone hne⟩
  | some l =>
      simp only [applyLast] at h
      by_cases h1 : l < 0
      · rw [if_pos h1] at h
        exact Except.noConfusion h
      · rw [if_neg h1] at h
        by_cases h2 : l > 100
        · rw [if_pos h2] at h
          exact Except.noConfusion h
        · rw [if_neg h2] at h
          by_cases h3 : e2 = some maxsize
          · rw [if_pos h3] at h
            rcases htc with rfl | rfl
            · simp only [] at h
              cases h
              refine ⟨by omega, by simp, fun _ => by omega⟩
            · simp only [] at h
              cases h
              refine ⟨by omega, by simp, fun _ => by omega⟩
          · rw [if_neg h3] at h
            cases he0 : e2 with
            | none => exact absurd he0 hne
            | some e =>
                rw [he0] at h
                simp only [] at h
                cases h
                have h0e : 0 ≤ e := hE e he0
                refine ⟨by omega, ?_, by simp⟩
                intro x hx
                injection hx with hx
                subst hx
                exact h0e

/-- The tail of the pipeline (first/last validation and the page build)
keeps the page within the maximum page size, given a validated window. -/
theorem pipeline_tail_bound {α : Type} (nodes : List α) (sized : Bool)
    (TC : Option Int) (first last : Option Int) (S : Int) (E : Option Int)
    (hS : 0 ≤ S) (hE : ∀ e, E = some e → 0 ≤ e) (hEne : E ≠ none)
    (htc : TC = none ∨ TC = some (nodes.length : Int)) (c : ConnectionB α)
    (hok : (match applyFirst first 100 S E with
            | .error e => .error e
            | .ok end2 =>
              match applyLast last 100 nodes.length S end2 TC sized with
              | .error e => .error e
              | .ok (s2, e3, tc3, sz2) => buildPage nodes sz2 tc3 s2 e3 :
          Except PagError (ConnectionB α)) = .ok c) :
    c.edges.length ≤ 100 := by
  cases haf : applyFirst first 100 S E with
  | error err =>
      rw [haf] at hok
      simp at hok
  | ok end2 =>
      rw [haf] at hok
      simp only [] at hok
      obtain ⟨hE2, hE2ne⟩ := applyFirst_window hE hS hEne haf
      cases hal : applyLast last 100 nodes.length S end2 TC sized with
      | error err =>
          rw [hal] at hok
          simp at hok
      | ok out =>
          obtain ⟨s2, e3, tc3, sz2⟩ := out
          rw [hal] at hok
          simp only [] at hok
          obtain ⟨hs2, he3, hn3⟩ := applyLast_window hS hE2 hE2ne htc hal
          exact buildPage_len_le nodes sz2 tc3 s2 e3 hs2 he3 hn3 c hok

/-- C10 (amended): whenever `from_nodes` returns a page — for any collection,
sized or not, any `first`/`last`, and any `before`/`after` cursors that
decode to non-negative offsets, with `total_count` absent or equal to the
collection's length — the page carries at most 100 edges. -/
theorem from_nodes_bounded {α : Type} (nodes : List α) (sized : Bool)
    (total_count : Option Int) (before after : Option StrB) (first last : Option Int)
    (htc : total_count = none ∨ total_count = some (nodes.length : Int))
    (hb : ∀ k, decodeCursorArg before = .ok (some k) → 0 ≤ k)
    (ha : ∀ k, decodeCursorArg after = .ok (some k) → 0 ≤ k)
    (c : ConnectionB α)
    (hok : from_nodes nodes sized total_count before after first last = .ok c) :
    c.edges.length ≤ 100 := by
  rw [from_nodes_pipeline] at hok
  have htc2 : (if total_count = none ∧ sized then some (nodes.length : Int)
      else total_count) = none ∨
      (if total_count = none ∧ sized then some (nodes.length : Int)
      else total_count) = some (nodes.length : Int) := by
    rcases htc with rfl | rfl
    · by_cases hsz : sized
      · rw [if_pos ⟨rfl, hsz⟩]
        exact Or.inr rfl
      · rw [if_neg (by simp [hsz])]
        exact Or.inl rfl
    · rw [if_neg (by simp)]
      exact Or.inr rfl
  cases hdca : decodeCursorArg after with
  | error err =>
      rw [hdca] at hok
      simp at hok
  | ok afterK =>
      rw [hdca] at hok
      simp only [] at hok
      cases hdcb : decodeCursorArg before with
      | error err =>
          rw [hdcb] at hok
          simp at hok
      | ok beforeK =>
          rw [hdcb] at hok
          simp only [] at hok
          refine pipeline_tail_bound nodes sized _ first last _ _ ?_ ?_ ?_ htc2 c hok
          · cases afterK with
            | none => exact le_refl 0
            | some k =>
                have := ha k hdca
                show (0 : Int) ≤ k + 1
                omega
          · cases beforeK with
            | some k =>
                intro e hee
                injection hee with hee
                subst hee
                exact hb _ hdcb
            | none =>
                intro e hee
                injection hee with hee
                subst hee
                rcases htc2 with hh | hh
                · simp only [hh]
                  rw [maxsize_eq]
                  omega
                · simp only [hh]
                  omega
          · cases beforeK with
            | some k => simp
            | none => simp

/-- C10 witness: all arguments supplied at once, within bounds, on a sized
seven-element collection. -/
theorem from_nodes_bounded_witness :
    (match from_nodes (List.replicate 7 (0 : Nat)) true none (some (mkCursor 5))
        (some (mkCursor 0)) (some 3) (some 2) with
      | .ok c => c.edges.length ≤ 100
      | .error _ => True) := by
  cases hok : from_nodes (List.replicate 7 (0 : Nat)) true none (some (mkCursor 5))
      (some (mkCursor 0)) (some 3) (some 2) with
  | error err => exact trivial
  | ok c =>
      exact from_nodes_bounded (List.replicate 7 (0 : Nat)) true none
        (some (mkCursor 5)) (some (mkCursor 0)) (some 3) (some 2)
        (Or.inl rfl)
        (fun k hk => by
          rw [decodeCursorArg_mkCursor] at hk
          injection hk with hk
          injection hk with hk
          omega)
        (fun k hk => by
          rw [decodeCursorArg_mkCursor] at hk
          injection hk with hk
          injection hk with hk
          omega)
        c hok

/-- C10 counterexample: with every argument a well-formed value — a sized
102-element collection, no `total_count`, and `before` a cursor token that
decodes under the engine's namespace (to offset `-2`) — `from_nodes`
returns normally with 101 edges, exceeding the fixed maximum page size. -/
theorem from_nodes_bounded_counterexample :
    (match from_nodes (List.replicate 102 (0 : Nat)) true none
        (some (mkCursor (-2))) none none none with
      | .ok c => some c.edges.length
      | .error _ => none) = some 101 := by decide

end Strawberry
